import Mathlib

/-!
Verification of the Houston pickup-schedule engine (`src/app/HoustonScheduler.ts`,
the current `HoustonScheduler` class with `parseData` / `getUpcomingEvents`).

The engine is shallowly embedded:
* JavaScript numbers that can be `NaN` are modelled by `JsVal`.
* moment.js civil dates are modelled by a `Date` structure `(y, m, d)`; `dayNumber`
  is the day number (days since 1970-01-01, Hinnant's civil-from-days formula),
  through which weekday computation and moment's `isSame(_, 'day')` comparison
  are expressed.
* moment's `.weeks()` (locale week of year, `en` locale: weeks start Sunday,
  week 1 is the week containing Jan 1) is `weekOfYear`.
* The `while` loop of `isHeavyDay` can run forever on some inputs, so it is
  embedded with explicit fuel; `none` means the loop has not finished within
  the given bound (for any bound, as some theorems below establish).
-/

/-- A JavaScript number that may be `NaN` (as produced by `parseInt` or by
`moment(str, "dddd").day()` on unparseable input). The unset sentinel `-1`
used by `parseData` is the ordinary number `num (-1)`. -/
inductive JsVal where
  | num (n : Int)
  | nan
  deriving DecidableEq

/-- JavaScript `==` between a real number and a possibly-NaN value:
`NaN` compares unequal to everything. -/
def jsEqNum (n : Int) (v : JsVal) : Bool :=
  match v with
  | .num m => n == m
  | .nan => false

/-- JavaScript `<` between a real number and a possibly-NaN value:
any comparison with `NaN` is false. -/
def jsLtNum (n : Int) (v : JsVal) : Bool :=
  match v with
  | .num m => n < m
  | .nan => false

/-- JavaScript `parseInt` on a string: skip whitespace, optional sign,
then a leading run of decimal digits; `NaN` if there is none.
(`parseData` only applies this to `junkPattern.substr(0, 1)`.) -/
def jsParseInt (s : String) : JsVal :=
  let chars := s.data.dropWhile (fun c => c == ' ' || c == '\t' || c == '\n' || c == '\r')
  let signAndRest : Int × List Char :=
    match chars with
    | '-' :: cs => (-1, cs)
    | '+' :: cs => (1, cs)
    | cs => (1, cs)
  let digits := signAndRest.2.takeWhile Char.isDigit
  if digits.isEmpty then .nan
  else .num (signAndRest.1 * (digits.foldl (fun acc c => acc * 10 + ((c.toNat : Int) - 48)) 0))

/-- JavaScript `String.prototype.includes`: `sub` occurs somewhere in the list. -/
def includesSub : List Char → List Char → Bool
  | [], sub => sub.isEmpty
  | l@(_ :: rest), sub => sub.isPrefixOf l || includesSub rest sub

/-- JavaScript `s.includes(sub)` on strings. -/
def strIncludes (s sub : String) : Bool :=
  includesSub s.data sub.data

/-- JavaScript `s.indexOf(c)`: index of the first occurrence, `-1` if absent. -/
def jsIndexOf (s : String) (c : Char) : Int :=
  match s.data.findIdx? (fun x => x == c) with
  | some i => (i : Int)
  | none => -1

/-- JavaScript `s.substr(start)` (one-argument form): from `start` to the end;
a negative `start` counts from the end of the string. -/
def jsSubstrFrom (s : String) (start : Int) : String :=
  let len : Int := (s.data.length : Int)
  let b : Int := if start < 0 then max (len + start) 0 else min start len
  String.mk (s.data.drop b.toNat)

/-- JavaScript `s.split('-')[0]`: the prefix of `s` before the first `'-'`
(the whole string if there is no dash). -/
def splitDashHead (s : String) : String :=
  String.mk (s.data.takeWhile (fun c => !(c == '-')))

/-- JavaScript `s.substr(0, 1)`: the first character as a string. -/
def jsFirstChar (s : String) : String :=
  String.mk (s.data.take 1)

/-- The two-letter minimal weekday names of moment's `en` locale, index 0-6
(Sunday-Saturday). In non-strict mode `moment(str, "dddd")` matches a parsed
word against `^full|^short|^min` per weekday, which collapses to a
case-insensitive test of the two-letter prefix. -/
def weekdayMins : List (List Char) :=
  [['s','u'], ['m','o'], ['t','u'], ['w','e'], ['t','h'], ['f','r'], ['s','a']]

/-- `HoustonScheduler.getDayIndex(dayStr)`, i.e. `moment(dayStr, 'dddd').day()`
with the `en` locale: non-strict parsing extracts the first run of letters from
the input (skipping other characters); if it case-insensitively starts with a
weekday name the index 0-6 is returned, otherwise the date is invalid and
`.day()` is `NaN`. -/
def getDayIndex (dayStr : String) : JsVal :=
  let word := ((dayStr.data.dropWhile (fun c => !c.isAlpha)).takeWhile Char.isAlpha).map Char.toLower
  if word.isEmpty then .nan
  else
    match weekdayMins.findIdx? (fun m => m.isPrefixOf word) with
    | some i => .num (i : Int)
    | none => .nan

/-! ## Civil dates (moment.js days, no time-of-day) -/

/-- Gregorian leap year. -/
def isLeap (y : Int) : Bool :=
  (y % 4 == 0 && y % 100 != 0) || (y % 400 == 0)

/-- Length of month `m` (1-12) of year `y`. -/
def monthLength (y m : Int) : Int :=
  if m = 2 then (if isLeap y then 29 else 28)
  else if m = 4 ∨ m = 6 ∨ m = 9 ∨ m = 11 then 30
  else 31

/-- A civil calendar date: year, month (1-12), day of month (1-based).
moment's `.month()` is 0-based, so the code's `day.month() + 1` is `m`. -/
structure Date where
  y : Int
  m : Int
  d : Int
  deriving DecidableEq

/-- The date is an actual calendar day. -/
def Date.valid (dt : Date) : Prop :=
  1 ≤ dt.m ∧ dt.m ≤ 12 ∧ 1 ≤ dt.d ∧ dt.d ≤ monthLength dt.y dt.m

instance : DecidablePred Date.valid := fun dt => by
  unfold Date.valid
  infer_instance

/-- Day number of a civil date: days since 1970-01-01 (Hinnant's
days-from-civil formula). Two moment dates are the same calendar day
(`isSame(_, 'day')`) iff their day numbers agree. -/
def dayNumber (dt : Date) : Int :=
  let ys := if dt.m ≤ 2 then dt.y - 1 else dt.y
  let mp := (dt.m + 9) % 12
  let doy := (153 * mp + 2) / 5 + dt.d - 1
  365 * ys + ys / 4 - ys / 100 + ys / 400 + doy - 719468

/-- Weekday of a day number, Sunday = 0 .. Saturday = 6 (moment's `.day()`).
1970-01-01 (day number 0) was a Thursday. -/
def weekdayZ (z : Int) : Int :=
  (z + 4) % 7

/-- moment `.day()` of a date. -/
def weekday (dt : Date) : Int :=
  weekdayZ (dayNumber dt)

/-- Successor calendar day (moment `.add(1, 'days')`). -/
def nextDay (dt : Date) : Date :=
  if dt.d < monthLength dt.y dt.m then ⟨dt.y, dt.m, dt.d + 1⟩
  else if dt.m < 12 then ⟨dt.y, dt.m + 1, 1⟩
  else ⟨dt.y + 1, 1, 1⟩

/-- Predecessor calendar day (moment `.add(-1, 'days')`). -/
def prevDay (dt : Date) : Date :=
  if 1 < dt.d then ⟨dt.y, dt.m, dt.d - 1⟩
  else if 1 < dt.m then ⟨dt.y, dt.m - 1, monthLength dt.y (dt.m - 1)⟩
  else ⟨dt.y - 1, 12, 31⟩

/-- moment `.clone().add(i, 'days')` for a possibly negative integer `i`. -/
def addDays (i : Int) (dt : Date) : Date :=
  if 0 ≤ i then nextDay^[i.toNat] dt else prevDay^[(-i).toNat] dt

/-- moment `.clone().startOf('month')`. -/
def monthStart (dt : Date) : Date :=
  ⟨dt.y, dt.m, 1⟩

/-! ## moment's locale week of year (`.weeks()`, `en` locale) -/

/-- January 1st of a year. -/
def jan1 (y : Int) : Date :=
  ⟨y, 1, 1⟩

/-- moment `.dayOfYear()`: 1 for January 1st. -/
def dayOfYear (dt : Date) : Int :=
  dayNumber dt - dayNumber (jan1 dt.y) + 1

/-- moment's `firstWeekOffset(year, dow, doy)` for the `en` locale
(`dow = 0`, `doy = 6`): simplifies to minus the weekday of January 1st. -/
def firstWeekOffset (y : Int) : Int :=
  -(weekdayZ (dayNumber (jan1 y)))

/-- Days in a year. -/
def daysInYear (y : Int) : Int :=
  if isLeap y then 366 else 365

/-- moment's `weeksInYear` for the `en` locale. -/
def weeksInYear (y : Int) : Int :=
  (daysInYear y - firstWeekOffset y + firstWeekOffset (y + 1)) / 7

/-- moment's `weekOfYear` (`.weeks()`) for the `en` locale: week 1 is the week
containing January 1st; late-December days falling in the week of next
January 1st wrap to week 1 of the next week-year. -/
def weekOfYear (dt : Date) : Int :=
  if (dayOfYear dt - firstWeekOffset dt.y - 1) / 7 + 1 < 1 then
    (dayOfYear dt - firstWeekOffset dt.y - 1) / 7 + 1 + weeksInYear (dt.y - 1)
  else if (dayOfYear dt - firstWeekOffset dt.y - 1) / 7 + 1 > weeksInYear dt.y then
    (dayOfYear dt - firstWeekOffset dt.y - 1) / 7 + 1 - weeksInYear dt.y
  else (dayOfYear dt - firstWeekOffset dt.y - 1) / 7 + 1

/-! ## The scheduler (`HoustonScheduler`) -/

/-- A raw ArcGIS record as consumed by `parseData`: either absent
(`null` / fetch failure), or a `features` list whose entries may or may not
carry an `attributes` mapping; the mapping is represented by the one string
field the engine reads from it (`DAY` / `SERVICE_DA` / `SERVICE_DAY`). -/
def GisRecord : Type :=
  Option (List (Option String))

/-- `HoustonScheduler.isValidData`: the record is non-null, has a non-empty
`features` list, and the first feature has an `attributes` mapping. -/
def isValidData (data : GisRecord) : Bool :=
  match data with
  | none => false
  | some features =>
    match features with
    | [] => false
    | f0 :: _ => f0.isSome

/-- The string field of the first feature (only read after `isValidData`). -/
def firstAttr (data : GisRecord) : String :=
  match data with
  | some ((some s) :: _) => s
  | _ => ""

/-- The `PickupDay` record of the scheduler (normalized rules). -/
structure PickupDay where
  wasteDay : JsVal
  junkWeekOfMonth : JsVal
  junkDay : JsVal
  recyclingDay : JsVal
  recyclingOnEvenWeeks : Bool
  deriving DecidableEq

/-- `HoustonScheduler.parseData`: turn the three raw records into `PickupDay`.
Waste: weekday of `DAY`. Heavy: `parseInt` of the first character of
`SERVICE_DA` and weekday of the substring after the first space. Recycling:
weekday of the part of `SERVICE_DAY` before the first dash, and
`recyclingOnEvenWeeks = !SERVICE_DAY.includes('-A')`. -/
def parseData (wasteData junkData recyclingData : GisRecord) : PickupDay :=
  let wasteDay := if isValidData wasteData then getDayIndex (firstAttr wasteData) else .num (-1)
  let junkWeekOfMonth :=
    if isValidData junkData then jsParseInt (jsFirstChar (firstAttr junkData)) else .num (-1)
  let junkDay :=
    if isValidData junkData then
      getDayIndex (jsSubstrFrom (firstAttr junkData) (jsIndexOf (firstAttr junkData) ' '))
    else .num (-1)
  let recyclingDay :=
    if isValidData recyclingData then getDayIndex (splitDashHead (firstAttr recyclingData))
    else .num (-1)
  let recyclingOnEvenWeeks :=
    if isValidData recyclingData then !(strIncludes (firstAttr recyclingData) "-A")
    else false
  ⟨wasteDay, junkWeekOfMonth, junkDay, recyclingDay, recyclingOnEvenWeeks⟩

/-- `HoustonScheduler.isWasteDay`. -/
def isWasteDay (rules : PickupDay) (day : Date) : Bool :=
  jsEqNum (weekday day) rules.wasteDay

/-- The `while` loop of `HoustonScheduler.isHeavyDay`, with explicit fuel:
starting from the first of the month, count days whose weekday equals
`junkDay` until the count reaches `junkWeekOfMonth`, stepping one day at a
time; returns the value of `dayInMonth` when the loop exits, or `none` if the
loop has not exited within `fuel` iterations. -/
def heavyLoop (rules : PickupDay) : Nat → Date → Int → Option Date
  | 0, _, _ => none
  | fuel + 1, dayInMonth, occurances =>
    if jsLtNum occurances rules.junkWeekOfMonth then
      heavyLoop rules fuel (nextDay dayInMonth)
        (if jsEqNum (weekday dayInMonth) rules.junkDay then occurances + 1 else occurances)
    else some dayInMonth

/-- `HoustonScheduler.isHeavyDay` (fueled): after the loop the code backs up
one day (`add(-1, 'days')`) and compares with `day` by calendar day. -/
def isHeavyDayFuel (rules : PickupDay) (day : Date) (fuel : Nat) : Option Bool :=
  (heavyLoop rules fuel (monthStart day) 0).map
    (fun dayInMonth => dayNumber (prevDay dayInMonth) == dayNumber day)

/-- `HoustonScheduler.isEvenMonth`: `(day.month() + 1) % 2 == 0` with the
0-based `.month()`, i.e. the 1-based month number is even. -/
def isEvenMonth (day : Date) : Bool :=
  day.m % 2 == 0

/-- `HoustonScheduler.isJunkDay` (fueled); `&&` short-circuits, so
`isHeavyDay` only runs in even months. -/
def isJunkDayFuel (rules : PickupDay) (day : Date) (fuel : Nat) : Option Bool :=
  if isEvenMonth day then isHeavyDayFuel rules day fuel else some false

/-- `HoustonScheduler.isTreeDay` (fueled); `&&` short-circuits, so
`isHeavyDay` only runs in odd months. -/
def isTreeDayFuel (rules : PickupDay) (day : Date) (fuel : Nat) : Option Bool :=
  if !(isEvenMonth day) then isHeavyDayFuel rules day fuel else some false

/-- `HoustonScheduler.isRecyclingDay`: the week parity of the locale
week-of-year must match `recyclingOnEvenWeeks` and the weekday must match
`recyclingDay`. -/
def isRecyclingDay (rules : PickupDay) (day : Date) : Bool :=
  ((rules.recyclingOnEvenWeeks && (weekOfYear day % 2 == 0)) ||
    (!rules.recyclingOnEvenWeeks && !(weekOfYear day % 2 == 0))) &&
  jsEqNum (weekday day) rules.recyclingDay

/-- `HoustonScheduler.isPossibleHoliday`: some holiday is the same calendar
day. The holiday table itself (`HOLIDAYS`, imported from `HoustonHolidays`)
is external data and is a parameter here. -/
def isPossibleHoliday (holidays : List Date) (day : Date) : Bool :=
  holidays.any (fun d => dayNumber d == dayNumber day)

/-- The category list for given flags, in the fixed insertion order of the
object literal in `getCategoriesForDay` (`_.toPairs` preserves it). -/
def catList (waste junk tree recycling : Bool) : List String :=
  (([("waste", waste), ("junk", junk), ("tree", tree), ("recycling", recycling)].filter
    (fun category => category.2)).map (fun category => category.1))

/-- `HoustonScheduler.getCategoriesForDay` (fueled). -/
def getCategoriesForDayFuel (rules : PickupDay) (day : Date) (fuel : Nat) :
    Option (List String) := do
  let junk ← isJunkDayFuel rules day fuel
  let tree ← isTreeDayFuel rules day fuel
  return catList (isWasteDay rules day) junk tree (isRecyclingDay rules day)

/-- One element of the generated event list. -/
structure EventInfo where
  day : Date
  categories : List String
  possibleHoliday : Bool
  deriving DecidableEq

/-- lodash `_.range(start, end)` with no step: the step defaults to `1` when
`start < end` and to `-1` otherwise, so a negative `end` yields a descending
range `[0, -1, ...]`. -/
def lodashRange (start finish : Int) : List Int :=
  let step : Int := if start < finish then 1 else -1
  let len : Nat := ((finish - start) / step).toNat
  (List.range len).map (fun i : Nat => start + step * (i : Int))

/-- `HoustonScheduler.getUpcomingEvents` (fueled): enumerate
`_.range(0, numberOfDays)` offsets from `today` (midnight "today" is the
window start), classify each day, and keep the days with at least one
category. -/
def getUpcomingEventsFuel (rules : PickupDay) (holidays : List Date) (today : Date)
    (numberOfDays : Int) (fuel : Nat) : Option (List EventInfo) := do
  let days := (lodashRange 0 numberOfDays).map (fun i => addDays i today)
  let events ← days.mapM (fun day => do
    let categories ← getCategoriesForDayFuel rules day fuel
    return EventInfo.mk day categories (isPossibleHoliday holidays day))
  return events.filter (fun event => event.categories.length != 0)

/-! ## Date arithmetic lemmas -/

lemma isLeap_cases (y : Int) :
    (isLeap y = true ∧ ((y % 4 = 0 ∧ ¬(y % 100 = 0)) ∨ y % 400 = 0)) ∨
    (isLeap y = false ∧ ¬((y % 4 = 0 ∧ ¬(y % 100 = 0)) ∨ y % 400 = 0)) := by
  rcases hiL : isLeap y with _ | _
  · right
    refine ⟨rfl, ?_⟩
    simpa [isLeap, not_or] using hiL
  · left
    refine ⟨rfl, ?_⟩
    simpa [isLeap] using hiL

lemma weekdayZ_bounds (z : Int) : 0 ≤ weekdayZ z ∧ weekdayZ z < 7 := by
  unfold weekdayZ
  omega

lemma monthLength_bounds (y m : Int) : 28 ≤ monthLength y m ∧ monthLength y m ≤ 31 := by
  unfold monthLength
  split_ifs <;> omega

lemma dayNumber_eq (y m d : Int) : dayNumber ⟨y, m, d⟩ =
    (if m ≤ 2 then 365 * (y - 1) + (y - 1) / 4 - (y - 1) / 100 + (y - 1) / 400
     else 365 * y + y / 4 - y / 100 + y / 400) +
    (153 * ((m + 9) % 12) + 2) / 5 + d - 1 - 719468 := by
  unfold dayNumber
  by_cases h : m ≤ 2 <;> simp only [h, if_true, if_false] <;> ring

lemma dayNumber_month_step (y m : Int) (h1 : 1 ≤ m) (h11 : m ≤ 11) :
    dayNumber ⟨y, m + 1, 1⟩ = dayNumber ⟨y, m, monthLength y m⟩ + 1 := by
  rcases isLeap_cases y with ⟨hiL, ha⟩ | ⟨hiL, ha⟩ <;>
  · interval_cases m <;>
    · rw [dayNumber_eq, dayNumber_eq]
      unfold monthLength
      simp only [hiL]
      try norm_num
      all_goals omega

lemma dayNumber_year_step (y : Int) :
    dayNumber ⟨y + 1, 1, 1⟩ = dayNumber ⟨y, 12, 31⟩ + 1 := by
  rw [dayNumber_eq, dayNumber_eq]
  norm_num
  omega

lemma nextDay_good (dt : Date) (h : dt.valid) :
    dayNumber (nextDay dt) = dayNumber dt + 1 ∧ (nextDay dt).valid := by
  obtain ⟨y, m, d⟩ := dt
  obtain ⟨h1, h2, h3, h4⟩ := h
  simp only at h1 h2 h3 h4
  have hb := monthLength_bounds y m
  by_cases hd : d < monthLength y m
  · have he : nextDay ⟨y, m, d⟩ = ⟨y, m, d + 1⟩ := by
      unfold nextDay
      simp only at hd ⊢
      rw [if_pos hd]
    rw [he]
    refine ⟨?_, ?_⟩
    · rw [dayNumber_eq, dayNumber_eq]
      ring
    · unfold Date.valid
      dsimp only
      omega
  · by_cases hm : m < 12
    · have he : nextDay ⟨y, m, d⟩ = ⟨y, m + 1, 1⟩ := by
        unfold nextDay
        simp only at hd ⊢
        rw [if_neg hd, if_pos hm]
      have hdlen : d = monthLength y m := by omega
      rw [he, hdlen]
      have hb2 := monthLength_bounds y (m + 1)
      refine ⟨dayNumber_month_step y m h1 (by omega), ?_⟩
      unfold Date.valid
      dsimp only
      omega
    · have hm12 : m = 12 := by omega
      subst hm12
      have hd31 : d = 31 := by
        unfold monthLength at hd h4
        norm_num at hd h4
        omega
      subst hd31
      have he : nextDay ⟨y, 12, 31⟩ = ⟨y + 1, 1, 1⟩ := by
        unfold nextDay monthLength
        norm_num
      rw [he]
      refine ⟨dayNumber_year_step y, ?_⟩
      unfold Date.valid monthLength
      norm_num

lemma prevDay_good (dt : Date) (h : dt.valid) :
    dayNumber (prevDay dt) = dayNumber dt - 1 ∧ (prevDay dt).valid := by
  obtain ⟨y, m, d⟩ := dt
  obtain ⟨h1, h2, h3, h4⟩ := h
  simp only at h1 h2 h3 h4
  have hb := monthLength_bounds y m
  by_cases hd : 1 < d
  · have he : prevDay ⟨y, m, d⟩ = ⟨y, m, d - 1⟩ := by
      unfold prevDay
      simp only at hd ⊢
      rw [if_pos hd]
    rw [he]
    refine ⟨?_, ?_⟩
    · rw [dayNumber_eq, dayNumber_eq]
      ring
    · unfold Date.valid
      dsimp only
      omega
  · have hd1 : d = 1 := by omega
    subst hd1
    by_cases hm : 1 < m
    · have he : prevDay ⟨y, m, 1⟩ = ⟨y, m - 1, monthLength y (m - 1)⟩ := by
        unfold prevDay
        simp only at hm ⊢
        rw [if_neg (by omega), if_pos hm]
      rw [he]
      have hstep := dayNumber_month_step y (m - 1) (by omega) (by omega)
      have hb2 := monthLength_bounds y (m - 1)
      have hmm : m - 1 + 1 = m := by omega
      rw [hmm] at hstep
      refine ⟨by omega, ?_⟩
      unfold Date.valid
      dsimp only
      omega
    · have hm1 : m = 1 := by omega
      subst hm1
      have he : prevDay ⟨y, 1, 1⟩ = ⟨y - 1, 12, 31⟩ := by
        unfold prevDay
        norm_num
      rw [he]
      have hstep := dayNumber_year_step (y - 1)
      have hyy : y - 1 + 1 = y := by omega
      rw [hyy] at hstep
      refine ⟨by omega, ?_⟩
      unfold Date.valid monthLength
      norm_num

lemma iterate_nextDay_good (n : Nat) (dt : Date) (h : dt.valid) :
    dayNumber (nextDay^[n] dt) = dayNumber dt + n ∧ (nextDay^[n] dt).valid := by
  induction n generalizing dt with
  | zero =>
    simpa using h
  | succ n ih =>
    rw [Function.iterate_succ_apply]
    obtain ⟨e1, v1⟩ := nextDay_good dt h
    obtain ⟨e2, v2⟩ := ih (nextDay dt) v1
    refine ⟨?_, v2⟩
    rw [e2, e1]
    push_cast
    ring

lemma iterate_prevDay_good (n : Nat) (dt : Date) (h : dt.valid) :
    dayNumber (prevDay^[n] dt) = dayNumber dt - n ∧ (prevDay^[n] dt).valid := by
  induction n generalizing dt with
  | zero =>
    simpa using h
  | succ n ih =>
    rw [Function.iterate_succ_apply]
    obtain ⟨e1, v1⟩ := prevDay_good dt h
    obtain ⟨e2, v2⟩ := ih (prevDay dt) v1
    refine ⟨?_, v2⟩
    rw [e2, e1]
    push_cast
    ring

lemma addDays_good (i : Int) (dt : Date) (h : dt.valid) :
    dayNumber (addDays i dt) = dayNumber dt + i ∧ (addDays i dt).valid := by
  unfold addDays
  by_cases h0 : 0 ≤ i
  · rw [if_pos h0]
    obtain ⟨e, v⟩ := iterate_nextDay_good i.toNat dt h
    refine ⟨?_, v⟩
    rw [e]
    omega
  · rw [if_neg h0]
    obtain ⟨e, v⟩ := iterate_prevDay_good (-i).toNat dt h
    refine ⟨?_, v⟩
    rw [e]
    omega

lemma monthStart_good (dt : Date) (h : dt.valid) :
    (monthStart dt).valid ∧ dayNumber dt = dayNumber (monthStart dt) + dt.d - 1 := by
  obtain ⟨y, m, d⟩ := dt
  obtain ⟨h1, h2, h3, h4⟩ := h
  simp only at h1 h2 h3 h4
  have hb := monthLength_bounds y m
  unfold monthStart
  dsimp only
  constructor
  · unfold Date.valid
    dsimp only
    omega
  · rw [dayNumber_eq, dayNumber_eq]
    ring

/-! ## The `isHeavyDay` loop -/

lemma heavyLoop_never (rules : PickupDay)
    (hnever : ∀ dt : Date, jsEqNum (weekday dt) rules.junkDay = false) :
    ∀ (fuel : Nat) (cur : Date) (occ : Int),
      jsLtNum occ rules.junkWeekOfMonth = true →
      heavyLoop rules fuel cur occ = none := by
  intro fuel
  induction fuel with
  | zero =>
    intro cur occ _
    rfl
  | succ f ih =>
    intro cur occ hlt
    simp only [heavyLoop]
    rw [if_pos hlt, hnever cur, if_neg Bool.false_ne_true]
    exact ih (nextDay cur) occ hlt

lemma heavyLoop_exit (rules : PickupDay) (fuel : Nat) (cur : Date) (occ : Int)
    (hstop : jsLtNum occ rules.junkWeekOfMonth = false) (hf : fuel ≠ 0) :
    heavyLoop rules fuel cur occ = some cur := by
  cases fuel with
  | zero => exact absurd rfl hf
  | succ f =>
    simp only [heavyLoop]
    rw [if_neg]
    rw [hstop]
    exact Bool.false_ne_true

lemma heavyLoop_char (rules : PickupDay) (w N : Int)
    (hw0 : 0 ≤ w) (hw7 : w < 7)
    (hjd : rules.junkDay = .num w) (hjw : rules.junkWeekOfMonth = .num N) :
    ∀ (fuel : Nat) (cur : Date) (occ : Int) (ex : Date), cur.valid → occ < N →
      heavyLoop rules fuel cur occ = some ex →
      ex.valid ∧
        dayNumber ex =
          dayNumber cur + (w - weekdayZ (dayNumber cur)) % 7 + 7 * (N - occ - 1) + 1 := by
  intro fuel
  induction fuel with
  | zero =>
    intro cur occ ex _ _ hrun
    exact absurd hrun (by simp [heavyLoop])
  | succ f ih =>
    intro cur occ ex hv hocc hrun
    obtain ⟨e1, v1⟩ := nextDay_good cur hv
    simp only [heavyLoop, hjw, hjd, jsLtNum, jsEqNum, decide_eq_true_eq, beq_iff_eq] at hrun
    rw [if_pos hocc] at hrun
    by_cases hm : weekday cur = w
    · rw [if_pos hm] at hrun
      by_cases hlast : occ + 1 < N
      · obtain ⟨vex, eex⟩ := ih (nextDay cur) (occ + 1) ex v1 hlast hrun
        refine ⟨vex, ?_⟩
        rw [eex, e1]
        unfold weekday at hm
        unfold weekdayZ at *
        omega
      · have hstop : jsLtNum (occ + 1) rules.junkWeekOfMonth = false := by
          rw [hjw]
          simp only [jsLtNum, decide_eq_false_iff_not]
          omega
        cases f with
        | zero => exact absurd hrun (by simp [heavyLoop])
        | succ f2 =>
          rw [heavyLoop_exit rules (f2 + 1) (nextDay cur) (occ + 1) hstop (by simp)] at hrun
          obtain rfl : nextDay cur = ex := Option.some.inj hrun
          refine ⟨v1, ?_⟩
          rw [e1]
          unfold weekday at hm
          unfold weekdayZ at *
          omega
    · rw [if_neg hm] at hrun
      obtain ⟨vex, eex⟩ := ih (nextDay cur) occ ex v1 hocc hrun
      refine ⟨vex, ?_⟩
      rw [eex, e1]
      unfold weekday at hm
      unfold weekdayZ at *
      omega

lemma isHeavyDayFuel_char (rules : PickupDay) (w N : Int)
    (hw0 : 0 ≤ w) (hw7 : w < 7)
    (hjd : rules.junkDay = .num w) (hjw : rules.junkWeekOfMonth = .num N)
    (d : Date) (fuel : Nat) (b : Bool) (hv : d.valid) (hN : 1 ≤ N)
    (hrun : isHeavyDayFuel rules d fuel = some b) :
    b = true ↔
      dayNumber d =
        dayNumber (monthStart d) + (w - weekdayZ (dayNumber (monthStart d))) % 7 +
          7 * (N - 1) := by
  unfold isHeavyDayFuel at hrun
  obtain ⟨ex, hex, hb⟩ := Option.map_eq_some'.mp hrun
  obtain ⟨hmsv, hmse⟩ := monthStart_good d hv
  obtain ⟨vex, eex⟩ :=
    heavyLoop_char rules w N hw0 hw7 hjd hjw fuel (monthStart d) 0 ex hmsv (by omega) hex
  obtain ⟨ep, _⟩ := prevDay_good ex vex
  rw [← hb, beq_iff_eq, ep, eex]
  omega

lemma isHeavyDayFuel_noiter (rules : PickupDay)
    (hstop : jsLtNum 0 rules.junkWeekOfMonth = false)
    (d : Date) (fuel : Nat) (hv : d.valid) (hf : fuel ≠ 0) :
    isHeavyDayFuel rules d fuel = some false := by
  unfold isHeavyDayFuel
  rw [heavyLoop_exit rules fuel (monthStart d) 0 hstop hf]
  obtain ⟨hmsv, hmse⟩ := monthStart_good d hv
  obtain ⟨ep, _⟩ := prevDay_good (monthStart d) hmsv
  obtain ⟨_, _, h3, _⟩ := hv
  simp only [Option.map_some', Option.some.injEq]
  rw [beq_eq_false_iff_ne]
  omega

lemma isHeavyDayFuel_none (rules : PickupDay)
    (hnever : ∀ dt : Date, jsEqNum (weekday dt) rules.junkDay = false)
    (hstart : jsLtNum 0 rules.junkWeekOfMonth = true) (d : Date) (fuel : Nat) :
    isHeavyDayFuel rules d fuel = none := by
  unfold isHeavyDayFuel
  rw [heavyLoop_never rules hnever fuel (monthStart d) 0 hstart]
  rfl

lemma never_match_nan (rules : PickupDay) (h : rules.junkDay = .nan) :
    ∀ dt : Date, jsEqNum (weekday dt) rules.junkDay = false := by
  intro dt
  rw [h]
  rfl

lemma never_match_out (rules : PickupDay) (w : Int) (h : rules.junkDay = .num w)
    (hw : w < 0 ∨ 6 < w) :
    ∀ dt : Date, jsEqNum (weekday dt) rules.junkDay = false := by
  intro dt
  rw [h]
  simp only [jsEqNum, beq_eq_false_iff_ne, ne_eq]
  have hb := weekdayZ_bounds (dayNumber dt)
  unfold weekday
  omega

/-! ## Spec-side occurrence counting (N-th weekday of the month) -/

/-- Number of days of `d`'s month up to and including `d` whose weekday is
`w`: day `d` is the `occurrencesUpTo d w`-th occurrence of `w` in its month. -/
def occurrencesUpTo (d : Date) (w : Int) : Nat :=
  ((List.range d.d.toNat).filter
    (fun k : Nat => weekdayZ (dayNumber (monthStart d) + (k : Int)) == w)).length

/-- Number of days of `d`'s whole month whose weekday is `w`. -/
def occurrencesInMonth (d : Date) (w : Int) : Nat :=
  ((List.range (monthLength d.y d.m).toNat).filter
    (fun k : Nat => weekdayZ (dayNumber (monthStart d) + (k : Int)) == w)).length

lemma count_weekday_range (s w : Int) (hw0 : 0 ≤ w) (hw7 : w < 7) :
    ∀ D : Nat,
      (((List.range D).filter (fun k : Nat => weekdayZ (s + (k : Int)) == w)).length : Int) =
        if (w - weekdayZ s) % 7 ≤ (D : Int) - 1 then
          ((D : Int) - 1 - (w - weekdayZ s) % 7) / 7 + 1
        else 0 := by
  intro D
  induction D with
  | zero =>
    have hg0 : 0 ≤ (w - weekdayZ s) % 7 := Int.emod_nonneg _ (by norm_num)
    rw [if_neg (by omega)]
    simp
  | succ D ih =>
    rw [List.range_succ, List.filter_append, List.length_append]
    push_cast
    rw [ih]
    simp only [List.filter_cons, List.filter_nil]
    by_cases hp : weekdayZ (s + (D : Int)) = w
    · have hcond : (weekdayZ (s + (D : Int)) == w) = true := beq_iff_eq.mpr hp
      rw [hcond]
      simp only [if_true, List.length_cons, List.length_nil]
      unfold weekdayZ at hp ⊢
      split_ifs <;> push_cast <;> omega
    · have hcond : (weekdayZ (s + (D : Int)) == w) = false := by
        simp [hp]
      rw [hcond]
      simp only [Bool.false_eq_true, if_false, List.length_nil]
      unfold weekdayZ at hp ⊢
      split_ifs <;> push_cast <;> omega

lemma occurrencesUpTo_char (d : Date) (hv : d.valid) (w N : Int)
    (hw0 : 0 ≤ w) (hw7 : w < 7) (hN : 1 ≤ N) :
    (weekday d = w ∧ (occurrencesUpTo d w : Int) = N) ↔
      dayNumber d =
        dayNumber (monthStart d) + (w - weekdayZ (dayNumber (monthStart d))) % 7 +
          7 * (N - 1) := by
  obtain ⟨hmsv, hmse⟩ := monthStart_good d hv
  obtain ⟨h1, h2, h3, h4⟩ := hv
  unfold occurrencesUpTo
  rw [count_weekday_range (dayNumber (monthStart d)) w hw0 hw7 d.d.toNat]
  have hcast : ((d.d.toNat : Int)) = d.d := Int.toNat_of_nonneg (by omega)
  rw [hcast]
  unfold weekday weekdayZ at *
  split_ifs <;> omega

lemma occurrencesInMonth_lower (d : Date) (hv : d.valid) (w N : Int)
    (hw0 : 0 ≤ w) (hw7 : w < 7) (hN : 1 ≤ N)
    (heq : dayNumber d =
      dayNumber (monthStart d) + (w - weekdayZ (dayNumber (monthStart d))) % 7 +
        7 * (N - 1)) :
    N ≤ (occurrencesInMonth d w : Int) := by
  obtain ⟨hmsv, hmse⟩ := monthStart_good d hv
  obtain ⟨h1, h2, h3, h4⟩ := hv
  have hb := monthLength_bounds d.y d.m
  unfold occurrencesInMonth
  rw [count_weekday_range (dayNumber (monthStart d)) w hw0 hw7 (monthLength d.y d.m).toNat]
  have hcast : (((monthLength d.y d.m).toNat : Int)) = monthLength d.y d.m :=
    Int.toNat_of_nonneg (by omega)
  rw [hcast]
  unfold weekdayZ at *
  split_ifs <;> omega

/-! ## Week-of-year arithmetic -/

/-- The day number of the first day (Sunday) of week 1 of year `y` in the
`en` locale: the Sunday on or before January 1st. -/
def weekStart1 (y : Int) : Int :=
  dayNumber (jan1 y) - weekdayZ (dayNumber (jan1 y))

lemma daysInYear_eq (y : Int) :
    dayNumber (jan1 (y + 1)) = dayNumber (jan1 y) + daysInYear y := by
  unfold jan1 daysInYear
  rw [dayNumber_eq, dayNumber_eq]
  rcases isLeap_cases y with ⟨hiL, ha⟩ | ⟨hiL, ha⟩ <;>
  · simp only [hiL]
    norm_num
    omega

lemma daysInYear_range (y : Int) : daysInYear y = 365 ∨ daysInYear y = 366 := by
  unfold daysInYear
  split_ifs <;> simp

lemma weeksInYear7 (y : Int) :
    7 * weeksInYear y = weekStart1 (y + 1) - weekStart1 y ∧
      (weeksInYear y = 52 ∨ weeksInYear y = 53) := by
  unfold weeksInYear weekStart1 firstWeekOffset
  have hd := daysInYear_eq y
  have hb1 := weekdayZ_bounds (dayNumber (jan1 y))
  have hb2 := weekdayZ_bounds (dayNumber (jan1 (y + 1)))
  have hdy := daysInYear_range y
  unfold weekdayZ at *
  omega

lemma year_bounds (dt : Date) (h : dt.valid) :
    dayNumber (jan1 dt.y) ≤ dayNumber dt ∧ dayNumber dt < dayNumber (jan1 (dt.y + 1)) := by
  obtain ⟨y, m, d⟩ := dt
  obtain ⟨h1, h2, h3, h4⟩ := h
  simp only at h1 h2 h3 h4 ⊢
  unfold jan1
  rcases isLeap_cases y with ⟨hiL, ha⟩ | ⟨hiL, ha⟩ <;>
  · unfold monthLength at h4
    interval_cases m <;>
    · rw [dayNumber_eq, dayNumber_eq, dayNumber_eq]
      simp only [hiL] at h4 ⊢
      try norm_num at h4
      try norm_num
      all_goals omega

lemma jan1_mono (y1 y2 : Int) (h : y1 ≤ y2) :
    dayNumber (jan1 y1) ≤ dayNumber (jan1 y2) := by
  have key : ∀ n : Nat, dayNumber (jan1 y1) ≤ dayNumber (jan1 (y1 + (n : Int))) := by
    intro n
    induction n with
    | zero => simp
    | succ n ih =>
      have hd := daysInYear_eq (y1 + (n : Int))
      have hdy := daysInYear_range (y1 + (n : Int))
      have hc : (y1 + ((n + 1 : Nat) : Int)) = y1 + (n : Int) + 1 := by push_cast; ring
      rw [hc]
      omega
  have hn : y2 = y1 + (((y2 - y1).toNat : Nat) : Int) := by omega
  rw [hn]
  exact key _

lemma weekOfYear_eq_aux (dt : Date) (hv : dt.valid) :
    weekOfYear dt =
      if (dayNumber dt - weekStart1 dt.y) / 7 + 1 > weeksInYear dt.y then
        (dayNumber dt - weekStart1 dt.y) / 7 + 1 - weeksInYear dt.y
      else (dayNumber dt - weekStart1 dt.y) / 7 + 1 := by
  obtain ⟨hlo, hhi⟩ := year_bounds dt hv
  have hb := weekdayZ_bounds (dayNumber (jan1 dt.y))
  have harg : dayOfYear dt - firstWeekOffset dt.y - 1 = dayNumber dt - weekStart1 dt.y := by
    unfold dayOfYear firstWeekOffset weekStart1
    ring
  unfold weekOfYear
  rw [harg]
  rw [if_neg ?hne]
  case hne =>
    have hr0 : 0 ≤ dayNumber dt - weekStart1 dt.y := by
      unfold weekStart1
      omega
    omega

lemma addDays_seven_seven (dt : Date) : addDays 7 (addDays 7 dt) = addDays 14 dt := rfl

lemma weekOfYear_parity (dt : Date) (hv : dt.valid) (h53 : weekOfYear dt ≠ 53) :
    (weekOfYear (addDays 7 dt) + weekOfYear dt) % 2 = 1 ∧ (addDays 7 dt).valid := by
  obtain ⟨e7, v7⟩ := addDays_good 7 dt hv
  refine ⟨?_, v7⟩
  obtain ⟨hlo, hhi⟩ := year_bounds dt hv
  obtain ⟨hlo7, hhi7⟩ := year_bounds (addDays 7 dt) v7
  have hy : (addDays 7 dt).y = dt.y ∨ (addDays 7 dt).y = dt.y + 1 := by
    rcases lt_trichotomy (addDays 7 dt).y dt.y with hlt | heq | hgt
    · exfalso
      have := jan1_mono ((addDays 7 dt).y + 1) dt.y (by omega)
      omega
    · exact Or.inl heq
    · rcases lt_or_le (addDays 7 dt).y (dt.y + 2) with h2 | h2
      · exact Or.inr (by omega)
      · exfalso
        have hm1 := jan1_mono (dt.y + 1 + 1) (addDays 7 dt).y (by omega)
        have hd1 := daysInYear_eq (dt.y + 1)
        have hdy1 := daysInYear_range (dt.y + 1)
        omega
  have hA := weekOfYear_eq_aux dt hv
  have hB := weekOfYear_eq_aux (addDays 7 dt) v7
  obtain ⟨hw71, hw72⟩ := weeksInYear7 dt.y
  have hb1 := weekdayZ_bounds (dayNumber (jan1 dt.y))
  have hb2 := weekdayZ_bounds (dayNumber (jan1 (dt.y + 1)))
  rcases hy with hy | hy <;> rw [hy] at hB hlo7 hhi7
  · unfold weekStart1 at *
    split_ifs at hA hB <;> omega
  · obtain ⟨hw71', hw72'⟩ := weeksInYear7 (dt.y + 1)
    have hb3 := weekdayZ_bounds (dayNumber (jan1 (dt.y + 2)))
    unfold weekStart1 at *
    split_ifs at hA hB <;> omega

/-! ## Generator machinery -/

lemma mapM_option_forall₂ {α β : Type} (f : α → Option β) :
    ∀ (l : List α) (r : List β), l.mapM f = some r →
      List.Forall₂ (fun a b => f a = some b) l r := by
  intro l
  induction l with
  | nil =>
    intro r h
    simp only [List.mapM_nil, pure, Option.some.injEq] at h
    rw [← h]
    exact List.Forall₂.nil
  | cons a l ih =>
    intro r h
    rw [List.mapM_cons] at h
    simp only [bind, pure] at h
    obtain ⟨b, hb, h2⟩ := Option.bind_eq_some.mp h
    obtain ⟨bs, hbs, h3⟩ := Option.bind_eq_some.mp h2
    obtain rfl : b :: bs = r := Option.some.inj h3
    exact List.Forall₂.cons hb (ih bs hbs)

lemma forall₂_mem_right {α β : Type} {P : α → β → Prop} :
    ∀ {l : List α} {r : List β}, List.Forall₂ P l r → ∀ b ∈ r, ∃ a ∈ l, P a b := by
  intro l r h
  induction h with
  | nil =>
    intro b hb
    exact absurd hb (List.not_mem_nil b)
  | cons h1 h2 ih =>
    intro b hb
    rcases List.mem_cons.mp hb with rfl | hb2
    · exact ⟨_, List.mem_cons_self _ _, h1⟩
    · obtain ⟨a, ha, hp⟩ := ih b hb2
      exact ⟨a, List.mem_cons_of_mem _ ha, hp⟩

lemma forall₂_pairwise {α β : Type} {P : α → β → Prop} {R : α → α → Prop}
    {R' : β → β → Prop}
    (hcompat : ∀ a b a' b', P a a' → P b b' → R a b → R' a' b') :
    ∀ {l : List α} {r : List β}, List.Forall₂ P l r → l.Pairwise R → r.Pairwise R' := by
  intro l r h
  induction h with
  | nil =>
    intro _
    exact List.Pairwise.nil
  | cons h1 h2 ih =>
    intro hp
    rcases List.pairwise_cons.mp hp with ⟨hR, hp2⟩
    refine List.Pairwise.cons ?_ (ih hp2)
    intro b' hb'
    obtain ⟨a', ha', hP'⟩ := forall₂_mem_right h2 b' hb'
    exact hcompat _ _ _ _ h1 hP' (hR a' ha')

lemma lodashRange_nonneg (n : Int) (h : 0 ≤ n) :
    lodashRange 0 n = (List.range n.toNat).map (fun i : Nat => (i : Int)) := by
  unfold lodashRange
  by_cases h0 : (0 : Int) < n
  · rw [if_pos h0]
    simp
  · have h00 : n = 0 := by omega
    subst h00
    norm_num

lemma lodashRange_neg (n : Int) (h : n < 0) :
    lodashRange 0 n = (List.range (-n).toNat).map (fun i : Nat => -(i : Int)) := by
  unfold lodashRange
  rw [if_neg (by omega)]
  norm_num

lemma events_core (rules : PickupDay) (holidays : List Date) (fuel : Nat) :
    ∀ (ds : List Date) (evs : List EventInfo),
      ds.mapM (fun day => do
          let categories ← getCategoriesForDayFuel rules day fuel
          return EventInfo.mk day categories (isPossibleHoliday holidays day)) = some evs →
      List.Forall₂ (fun d e => e.day = d) ds evs := by
  intro ds evs h
  refine (mapM_option_forall₂ _ ds evs h).imp ?_
  intro d e hde
  simp only [bind, pure] at hde
  obtain ⟨c, hc, he⟩ := Option.bind_eq_some.mp hde
  obtain rfl : EventInfo.mk d c (isPossibleHoliday holidays d) = e := Option.some.inj he
  rfl

/-! ## Category list facts -/

lemma catList_facts :
    ∀ w j t r : Bool,
      ("waste" ∈ catList w j t r ↔ w = true) ∧
      ("junk" ∈ catList w j t r ↔ j = true) ∧
      ("tree" ∈ catList w j t r ↔ t = true) ∧
      ("recycling" ∈ catList w j t r ↔ r = true) ∧
      (catList w j t r).Sublist ["waste", "junk", "tree", "recycling"] ∧
      (catList w j t r).Nodup := by
  decide

lemma getCategories_destruct (rules : PickupDay) (d : Date) (fuel : Nat)
    (cats : List String) :
    getCategoriesForDayFuel rules d fuel = some cats →
    ∃ j t : Bool, isJunkDayFuel rules d fuel = some j ∧ isTreeDayFuel rules d fuel = some t ∧
      cats = catList (isWasteDay rules d) j t (isRecyclingDay rules d) := by
  unfold getCategoriesForDayFuel
  intro h
  simp only [bind, pure] at h
  obtain ⟨j, hj, h2⟩ := Option.bind_eq_some.mp h
  obtain ⟨t, ht, h3⟩ := Option.bind_eq_some.mp h2
  exact ⟨j, t, hj, ht, (Option.some.inj h3).symm⟩

lemma generator_destruct (rules : PickupDay) (holidays : List Date) (today : Date)
    (n : Int) (fuel : Nat) (evs : List EventInfo) :
    getUpcomingEventsFuel rules holidays today n fuel = some evs →
    ∃ evs0 : List EventInfo,
      ((lodashRange 0 n).map (fun i => addDays i today)).mapM (fun day => do
          let categories ← getCategoriesForDayFuel rules day fuel
          return EventInfo.mk day categories (isPossibleHoliday holidays day)) = some evs0 ∧
      evs = evs0.filter (fun event => event.categories.length != 0) := by
  unfold getUpcomingEventsFuel
  intro h
  simp only [bind, pure] at h
  obtain ⟨evs0, h1, h2⟩ := Option.bind_eq_some.mp h
  exact ⟨evs0, h1, (Option.some.inj h2).symm⟩

lemma mapM_none_of_head {α β : Type} (f : α → Option β) (a : α) (l : List α)
    (hf : f a = none) : (a :: l).mapM f = none := by
  rw [List.mapM_cons]
  simp [hf, bind]

/-! ## String facts for the recycling composite -/

lemma includesSub_append_self (cs sub : List Char) : includesSub (cs ++ sub) sub = true := by
  induction cs with
  | nil =>
    rw [List.nil_append]
    cases sub with
    | nil => rfl
    | cons a l =>
      unfold includesSub
      rw [Bool.or_eq_true]
      left
      rw [List.isPrefixOf_iff_prefix]
  | cons a cs ih =>
    rw [List.cons_append]
    unfold includesSub
    rw [Bool.or_eq_true]
    right
    exact ih

lemma includesSub_dashA_false (cs : List Char) (h : '-' ∉ cs) :
    includesSub cs ['-', 'A'] = false := by
  induction cs with
  | nil => rfl
  | cons a cs ih =>
    have ha : a ≠ '-' := fun hh => h (hh ▸ List.mem_cons_self a cs)
    have h2 : '-' ∉ cs := fun hm => h (List.mem_cons_of_mem _ hm)
    unfold includesSub
    rw [Bool.or_eq_false_iff]
    refine ⟨?_, ih h2⟩
    rw [Bool.eq_false_iff]
    intro hp
    rw [List.isPrefixOf_iff_prefix] at hp
    rcases List.cons_prefix_cons.mp hp with ⟨heq, _⟩
    exact ha heq.symm

lemma includesSub_dashB (cs : List Char) (h : '-' ∉ cs) :
    includesSub (cs ++ ['-', 'B']) ['-', 'A'] = false := by
  induction cs with
  | nil => rfl
  | cons a cs ih =>
    have ha : a ≠ '-' := fun hh => h (hh ▸ List.mem_cons_self a cs)
    have h2 : '-' ∉ cs := fun hm => h (List.mem_cons_of_mem _ hm)
    rw [List.cons_append]
    unfold includesSub
    rw [Bool.or_eq_false_iff]
    refine ⟨?_, ih h2⟩
    rw [Bool.eq_false_iff]
    intro hp
    rw [List.isPrefixOf_iff_prefix] at hp
    rcases List.cons_prefix_cons.mp hp with ⟨heq, _⟩
    exact ha heq.symm

lemma takeWhile_nodash_append (cs : List Char) (h : '-' ∉ cs) (rest : List Char) :
    (cs ++ '-' :: rest).takeWhile (fun c => !(c == '-')) = cs := by
  induction cs with
  | nil =>
    rw [List.nil_append]
    rfl
  | cons a cs ih =>
    have ha : a ≠ '-' := fun hh => h (hh ▸ List.mem_cons_self a cs)
    have h2 : '-' ∉ cs := fun hm => h (List.mem_cons_of_mem _ hm)
    rw [List.cons_append, List.takeWhile_cons]
    have hcond : (!(a == '-')) = true := by
      simp [ha]
    rw [hcond]
    simp only [if_true]
    rw [ih h2]

lemma takeWhile_nodash (cs : List Char) (h : '-' ∉ cs) :
    cs.takeWhile (fun c => !(c == '-')) = cs := by
  induction cs with
  | nil => rfl
  | cons a cs ih =>
    have ha : a ≠ '-' := fun hh => h (hh ▸ List.mem_cons_self a cs)
    have h2 : '-' ∉ cs := fun hm => h (List.mem_cons_of_mem _ hm)
    rw [List.takeWhile_cons]
    have hcond : (!(a == '-')) = true := by
      simp [ha]
    rw [hcond]
    simp only [if_true]
    rw [ih h2]

/-! ## Claim theorems -/

/-- **C7**: for every rule set and every date, the junk and tree categories are
mutually exclusive: no category list produced by `getCategoriesForDay`, and no
emitted event's category set, contains both `junk` and `tree` (junk requires an
even 1-based month number, tree an odd one, over the same heavy-occurrence
test). -/
theorem claim7_junk_tree_exclusive :
    (∀ (rules : PickupDay) (d : Date) (fuel : Nat) (cats : List String),
        getCategoriesForDayFuel rules d fuel = some cats →
        ¬("junk" ∈ cats ∧ "tree" ∈ cats)) ∧
    (∀ (rules : PickupDay) (holidays : List Date) (today : Date) (n : Int) (fuel : Nat)
        (evs : List EventInfo),
        getUpcomingEventsFuel rules holidays today n fuel = some evs →
        ∀ e ∈ evs, ¬("junk" ∈ e.categories ∧ "tree" ∈ e.categories)) := by
  have part1 : ∀ (rules : PickupDay) (d : Date) (fuel : Nat) (cats : List String),
      getCategoriesForDayFuel rules d fuel = some cats →
      ¬("junk" ∈ cats ∧ "tree" ∈ cats) := by
    intro rules d fuel cats h hcon
    obtain ⟨hj, ht⟩ := hcon
    obtain ⟨j, t, hjj, htt, rfl⟩ := getCategories_destruct rules d fuel cats h
    obtain ⟨_, hjm, htm, _⟩ :=
      catList_facts (isWasteDay rules d) j t (isRecyclingDay rules d)
    have hj' : j = true := hjm.mp hj
    have ht' : t = true := htm.mp ht
    unfold isJunkDayFuel at hjj
    unfold isTreeDayFuel at htt
    by_cases he : isEvenMonth d
    · rw [if_neg (by simp [he])] at htt
      have hf : (false : Bool) = t := Option.some.inj htt
      rw [ht'] at hf
      exact Bool.false_ne_true hf
    · rw [if_neg he] at hjj
      have hf : (false : Bool) = j := Option.some.inj hjj
      rw [hj'] at hf
      exact Bool.false_ne_true hf
  refine ⟨part1, ?_⟩
  intro rules holidays today n fuel evs h e he
  obtain ⟨evs0, hmap, rfl⟩ := generator_destruct rules holidays today n fuel evs h
  have he0 : e ∈ evs0 := List.mem_of_mem_filter he
  have hfa := mapM_option_forall₂ _ _ _ hmap
  obtain ⟨day, _, hstep⟩ := forall₂_mem_right hfa e he0
  simp only [bind, pure] at hstep
  obtain ⟨c, hc, heq⟩ := Option.bind_eq_some.mp hstep
  obtain rfl : EventInfo.mk day c (isPossibleHoliday holidays day) = e := Option.some.inj heq
  exact part1 rules day fuel c hc

/-- **C7 witness**. -/
theorem claim7_witness :
    ¬("junk" ∈ (["waste"] : List String) ∧ "tree" ∈ (["waste"] : List String)) :=
  claim7_junk_tree_exclusive.1 (parseData (some [some "Monday"]) none none)
    ⟨2017, 1, 2⟩ 2 ["waste"] (by decide)

/-- **C8**: `isPossibleHoliday(date)` is true iff the date (compared by
calendar day, i.e. by day number) is present in the holiday table; the
function consults nothing but the table, so the flag is independent of the
categories of the date, and a date absent from the table gets `false`. -/
theorem claim8_possible_holiday :
    ∀ (holidays : List Date) (d : Date),
      isPossibleHoliday holidays d = true ↔ ∃ h ∈ holidays, dayNumber h = dayNumber d := by
  intro holidays d
  unfold isPossibleHoliday
  rw [List.any_eq_true]
  simp only [beq_iff_eq]

/-- **C9**: every category list produced by `getCategoriesForDay` is a
subsequence of the fixed order `[waste, junk, tree, recycling]` and has no
duplicates. -/
theorem claim9_categories_ordered :
    ∀ (rules : PickupDay) (d : Date) (fuel : Nat) (cats : List String),
      getCategoriesForDayFuel rules d fuel = some cats →
      cats.Sublist ["waste", "junk", "tree", "recycling"] ∧ cats.Nodup := by
  intro rules d fuel cats h
  obtain ⟨j, t, _, _, rfl⟩ := getCategories_destruct rules d fuel cats h
  obtain ⟨_, _, _, _, hs, hn⟩ :=
    catList_facts (isWasteDay rules d) j t (isRecyclingDay rules d)
  exact ⟨hs, hn⟩

/-- **C9 witness**. -/
theorem claim9_witness :
    (["waste"] : List String).Sublist ["waste", "junk", "tree", "recycling"] ∧
      (["waste"] : List String).Nodup :=
  claim9_categories_ordered (parseData (some [some "Monday"]) none none)
    ⟨2017, 1, 2⟩ 2 ["waste"] (by decide)

/-- **C10 counterexample**: `"Monkey"` is not one of the seven English weekday
names, and the waste record carrying it is structurally valid, yet the parsed
day field is the weekday index 1 (Monday), not `NaN`: moment's non-strict
weekday parse is prefix-based, so the `Mo` prefix matches. The classifier then
does match it — Monday 2017-01-02 is a waste day — refuting both halves of
the claim as stated. -/
theorem claim10_counterexample :
    getDayIndex "Monkey" = .num 1 ∧
    (parseData (some [some "Monkey"]) none none).wasteDay = .num 1 ∧
    ¬((parseData (some [some "Monkey"]) none none).wasteDay = .nan) ∧
    isWasteDay (parseData (some [some "Monkey"]) none none) ⟨2017, 1, 2⟩ = true := by
  refine ⟨by decide, by decide, by decide, by decide⟩

/-- **C10 amended**: for every weekday string whose first run of letters does
not begin, case-insensitively, with any of the seven weekday-name prefixes
(`Su`, `Mo`, `Tu`, `We`, `Th`, `Fr`, `Sa`), the parsed day field is `NaN` —
not the `-1` unset sentinel — and the classifier never matches it:
`isWasteDay` and `isRecyclingDay` are false on every date and no produced
category list contains `waste` (resp. `recycling`). Non-weekday strings that
do begin with such a prefix (e.g. `"Monkey"`) instead parse to that weekday's
index. -/
theorem claim10_amended :
    (∀ s : String,
        (∀ p ∈ weekdayMins,
          p.isPrefixOf
              (((s.data.dropWhile (fun c => !c.isAlpha)).takeWhile Char.isAlpha).map
                Char.toLower) = false) →
        getDayIndex s = .nan) ∧
    (JsVal.nan ≠ .num (-1)) ∧
    (parseData (some [some "Blursday"]) none none).wasteDay = .nan ∧
    (parseData none none (some [some "Blursday-A"])).recyclingDay = .nan ∧
    (∀ (rules : PickupDay) (d : Date), rules.wasteDay = .nan →
      isWasteDay rules d = false) ∧
    (∀ (rules : PickupDay) (d : Date), rules.recyclingDay = .nan →
      isRecyclingDay rules d = false) ∧
    (∀ (rules : PickupDay) (d : Date) (fuel : Nat) (cats : List String),
      rules.wasteDay = .nan → getCategoriesForDayFuel rules d fuel = some cats →
      "waste" ∉ cats) ∧
    (∀ (rules : PickupDay) (d : Date) (fuel : Nat) (cats : List String),
      rules.recyclingDay = .nan → getCategoriesForDayFuel rules d fuel = some cats →
      "recycling" ∉ cats) ∧
    getDayIndex "Monkey" = .num 1 := by
  have hgen : ∀ s : String,
      (∀ p ∈ weekdayMins,
        p.isPrefixOf
            (((s.data.dropWhile (fun c => !c.isAlpha)).takeWhile Char.isAlpha).map
              Char.toLower) = false) →
      getDayIndex s = .nan := by
    intro s hp
    simp only [getDayIndex]
    by_cases hw : (((s.data.dropWhile (fun c => !c.isAlpha)).takeWhile Char.isAlpha).map
        Char.toLower).isEmpty
    · rw [if_pos hw]
    · rw [if_neg hw]
      have h1 := hp ['s', 'u'] (by simp [weekdayMins])
      have h2 := hp ['m', 'o'] (by simp [weekdayMins])
      have h3 := hp ['t', 'u'] (by simp [weekdayMins])
      have h4 := hp ['w', 'e'] (by simp [weekdayMins])
      have h5 := hp ['t', 'h'] (by simp [weekdayMins])
      have h6 := hp ['f', 'r'] (by simp [weekdayMins])
      have h7 := hp ['s', 'a'] (by simp [weekdayMins])
      simp only [weekdayMins, List.findIdx?_cons, List.findIdx?_nil, h1, h2, h3, h4,
        h5, h6, h7, Bool.false_eq_true, if_false, Option.map_none']
  have hwaste : ∀ (rules : PickupDay) (d : Date), rules.wasteDay = .nan →
      isWasteDay rules d = false := by
    intro rules d h
    unfold isWasteDay
    rw [h]
    rfl
  have hrec : ∀ (rules : PickupDay) (d : Date), rules.recyclingDay = .nan →
      isRecyclingDay rules d = false := by
    intro rules d h
    unfold isRecyclingDay
    rw [h]
    simp [jsEqNum]
  refine ⟨hgen, by decide, rfl, rfl, hwaste, hrec, ?_, ?_, rfl⟩
  · intro rules d fuel cats h1 h2 hmem
    obtain ⟨j, t, _, _, rfl⟩ := getCategories_destruct rules d fuel cats h2
    obtain ⟨hwm, _, _, _⟩ :=
      catList_facts (isWasteDay rules d) j t (isRecyclingDay rules d)
    have := hwm.mp hmem
    rw [hwaste rules d h1] at this
    exact Bool.false_ne_true this
  · intro rules d fuel cats h1 h2 hmem
    obtain ⟨j, t, _, _, rfl⟩ := getCategories_destruct rules d fuel cats h2
    obtain ⟨_, _, _, hrm, _⟩ :=
      catList_facts (isWasteDay rules d) j t (isRecyclingDay rules d)
    have := hrm.mp hmem
    rw [hrec rules d h1] at this
    exact Bool.false_ne_true this

/-- **C10 witness**: `"Blursday"` starts with no weekday prefix, so it parses
to `NaN`. -/
theorem claim10_witness :
    getDayIndex "Blursday" = .nan :=
  claim10_amended.1 "Blursday" (by decide)

/-- **C3**: for rules with `heavyWeekOfMonth = N ≥ 1` and `heavyWeekday = w` a
set weekday (0-6), `isHeavyDay(d)` terminates and is true iff `d` is the
`N`-th occurrence of `w` within `d`'s calendar month; if the month has fewer
than `N` occurrences of `w`, the result is false for every date of the month;
and with `heavyWeekOfMonth` unset (`-1`) the result is false.  However the
final clause of the claim fails on the other unset field: with
`heavyWeekOfMonth = N ≥ 1` and `heavyWeekday` unset (`-1`), the `while` loop
of `isHeavyDay` never terminates (it returns within no fuel bound), instead of
returning false. -/
theorem claim3_nth_weekday_characterization :
    (∀ (rules : PickupDay) (N : Int) (d : Date) (fuel : Nat),
        rules.junkWeekOfMonth = .num N → 1 ≤ N → rules.junkDay = .num (-1) →
        isHeavyDayFuel rules d fuel = none) ∧
    (∀ (rules : PickupDay) (N w : Int) (d : Date) (fuel : Nat) (b : Bool),
        d.valid → rules.junkWeekOfMonth = .num N → 1 ≤ N →
        rules.junkDay = .num w → 0 ≤ w → w ≤ 6 →
        isHeavyDayFuel rules d fuel = some b →
        ((b = true ↔ (weekday d = w ∧ (occurrencesUpTo d w : Int) = N)) ∧
          ((occurrencesInMonth d w : Int) < N → b = false))) ∧
    (∀ (rules : PickupDay) (d : Date) (fuel : Nat),
        rules.junkWeekOfMonth = .num (-1) → d.valid → fuel ≠ 0 →
        isHeavyDayFuel rules d fuel = some false) := by
  refine ⟨?_, ?_, ?_⟩
  · intro rules N d fuel hjw hN hjd
    refine isHeavyDayFuel_none rules
      (never_match_out rules (-1) hjd (Or.inl (by norm_num))) ?_ d fuel
    rw [hjw]
    simp only [jsLtNum, decide_eq_true_eq]
    omega
  · intro rules N w d fuel b hv hjw hN hjd hw0 hw6 hrun
    have hiff := isHeavyDayFuel_char rules w N hw0 (by omega) hjd hjw d fuel b hv hN hrun
    have hocc := occurrencesUpTo_char d hv w N hw0 (by omega) hN
    refine ⟨hiff.trans hocc.symm, ?_⟩
    intro hshort
    cases b with
    | false => rfl
    | true =>
      exfalso
      have hfm := hiff.mp rfl
      have := occurrencesInMonth_lower d hv w N hw0 (by omega) hN hfm
      omega
  · intro rules d fuel hjw hv hf
    refine isHeavyDayFuel_noiter rules ?_ d fuel hv hf
    rw [hjw]
    rfl

/-- **C3 witness**: January 16, 2024 is the third Tuesday of its month, as the
engine's heavy-day test confirms on rules parsed from `"3 Tuesday"`. -/
theorem claim3_witness :
    weekday ⟨2024, 1, 16⟩ = 2 ∧ (occurrencesUpTo ⟨2024, 1, 16⟩ 2 : Int) = 3 :=
  (claim3_nth_weekday_characterization.2.1 (parseData none (some [some "3 Tuesday"]) none)
      3 2 ⟨2024, 1, 16⟩ 40 true (by decide) rfl (by norm_num) rfl (by norm_num)
      (by norm_num) (by decide)).1.mp rfl

/-- Reduction of `parseData` on a well-formed recycling record. -/
lemma parseData_recycling (s : String) :
    (parseData none none (some [some s])).recyclingOnEvenWeeks = !(strIncludes s "-A") ∧
    (parseData none none (some [some s])).recyclingDay = getDayIndex (splitDashHead s) := by
  constructor <;> rfl

/-- **C4 counterexample**: the recycling record `"Wednesday-B"` has a suffix,
yet parsing sets `recyclingOnEvenWeeks = true`, not `false` as the claim
states (the code tests specifically for the `-A` marker, not for the presence
of a suffix). -/
theorem claim4_counterexample :
    ¬((parseData none none (some [some "Wednesday-B"])).recyclingOnEvenWeeks = false) := by
  decide

/-- **C4 amended**: parsing a recycling record sets
`recyclingOnEvenWeeks = false` iff the composite string contains the `-A`
marker — so a `"-B"` suffix behaves like no suffix at all and selects even
weeks (`true`) — and sets `recyclingDay` to the weekday index of the part
before the first dash. -/
theorem claim4_amended :
    ∀ name : List Char, ('-' ∉ name) →
      ((parseData none none
          (some [some (String.mk (name ++ ['-', 'A']))])).recyclingOnEvenWeeks = false ∧
        (parseData none none
          (some [some (String.mk (name ++ ['-', 'B']))])).recyclingOnEvenWeeks = true ∧
        (parseData none none
          (some [some (String.mk name)])).recyclingOnEvenWeeks = true ∧
        (parseData none none (some [some (String.mk (name ++ ['-', 'A']))])).recyclingDay =
          getDayIndex (String.mk name) ∧
        (parseData none none (some [some (String.mk (name ++ ['-', 'B']))])).recyclingDay =
          getDayIndex (String.mk name) ∧
        (parseData none none (some [some (String.mk name)])).recyclingDay =
          getDayIndex (String.mk name)) := by
  intro name h
  have hA : splitDashHead (String.mk (name ++ ['-', 'A'])) = String.mk name := by
    unfold splitDashHead
    exact congrArg String.mk (takeWhile_nodash_append name h ['A'])
  have hB : splitDashHead (String.mk (name ++ ['-', 'B'])) = String.mk name := by
    unfold splitDashHead
    exact congrArg String.mk (takeWhile_nodash_append name h ['B'])
  have hplain : splitDashHead (String.mk name) = String.mk name := by
    unfold splitDashHead
    exact congrArg String.mk (takeWhile_nodash name h)
  refine ⟨?_, ?_, ?_, ?_, ?_, ?_⟩
  · rw [(parseData_recycling _).1]
    show (!(includesSub (name ++ ['-', 'A']) ['-', 'A'])) = false
    rw [includesSub_append_self]
    rfl
  · rw [(parseData_recycling _).1]
    show (!(includesSub (name ++ ['-', 'B']) ['-', 'A'])) = true
    rw [includesSub_dashB name h]
    rfl
  · rw [(parseData_recycling _).1]
    show (!(includesSub name ['-', 'A'])) = true
    rw [includesSub_dashA_false name h]
    rfl
  · rw [(parseData_recycling _).2, hA]
  · rw [(parseData_recycling _).2, hB]
  · rw [(parseData_recycling _).2, hplain]

/-- **C4 witness**. -/
theorem claim4_witness :
    (parseData none none
        (some [some (String.mk (['W', 'e', 'd'] ++ ['-', 'A']))])).recyclingOnEvenWeeks =
      false ∧
    (parseData none none
        (some [some (String.mk (['W', 'e', 'd'] ++ ['-', 'B']))])).recyclingOnEvenWeeks =
      true ∧
    (parseData none none (some [some (String.mk ['W', 'e', 'd'])])).recyclingOnEvenWeeks =
      true ∧
    (parseData none none (some [some (String.mk (['W', 'e', 'd'] ++ ['-', 'A']))])).recyclingDay =
      getDayIndex (String.mk ['W', 'e', 'd']) ∧
    (parseData none none (some [some (String.mk (['W', 'e', 'd'] ++ ['-', 'B']))])).recyclingDay =
      getDayIndex (String.mk ['W', 'e', 'd']) ∧
    (parseData none none (some [some (String.mk ['W', 'e', 'd'])])).recyclingDay =
      getDayIndex (String.mk ['W', 'e', 'd']) :=
  claim4_amended ['W', 'e', 'd'] (by decide)

/-- **C5 counterexample**: with rules parsed from `"Saturday-A"` (recycling on
Saturdays of odd-numbered weeks), both Saturday 2016-12-31 (locale week 53 of
2016, a 53-week year) and Saturday 2017-01-07 (week 1) are recycling days —
two recycling events exactly 7 days apart on the same weekday, and the
8-day window starting 2016-12-31 indeed emits both; so the claimed
present/absent 14-day alternation does not hold for every window. -/
theorem claim5_counterexample :
    isRecyclingDay (parseData none none (some [some "Saturday-A"])) ⟨2016, 12, 31⟩ = true ∧
    addDays 7 ⟨2016, 12, 31⟩ = ⟨2017, 1, 7⟩ ∧
    isRecyclingDay (parseData none none (some [some "Saturday-A"])) ⟨2017, 1, 7⟩ = true ∧
    getUpcomingEventsFuel (parseData none none (some [some "Saturday-A"])) []
        ⟨2016, 12, 31⟩ 8 2 =
      some [⟨⟨2016, 12, 31⟩, ["recycling"], false⟩, ⟨⟨2017, 1, 7⟩, ["recycling"], false⟩] := by
  refine ⟨by decide, by decide, by decide, by decide⟩

/-- **C5 amended**: recycling recurs with exactly 14-day periodicity on the
rule's weekday as long as the locale week number 53 is not crossed: if `d` is
in a week other than 53, then `d` and `d + 7` are never both recycling days,
and if `d + 7` is also in a week other than 53, then `d + 14` is a recycling
day iff `d` is. Across the final (53rd) week of a 53-week year the alternation
can break, with consecutive recycling days 7 (or 21) days apart. -/
theorem claim5_amended :
    ∀ (rules : PickupDay) (d : Date), d.valid → weekOfYear d ≠ 53 →
      (¬(isRecyclingDay rules d = true ∧ isRecyclingDay rules (addDays 7 d) = true)) ∧
      (weekOfYear (addDays 7 d) ≠ 53 →
        isRecyclingDay rules (addDays 14 d) = isRecyclingDay rules d) := by
  intro rules d hv h53
  obtain ⟨hpar, v7⟩ := weekOfYear_parity d hv h53
  constructor
  · intro hcon
    obtain ⟨h1, h2⟩ := hcon
    unfold isRecyclingDay at h1 h2
    rcases hflag : rules.recyclingOnEvenWeeks with _ | _ <;>
    · rw [hflag] at h1 h2
      simp only [Bool.false_and, Bool.true_and, Bool.not_false, Bool.not_true,
        Bool.false_or, Bool.or_false, Bool.and_eq_true, Bool.not_eq_true',
        beq_iff_eq, beq_eq_false_iff_ne] at h1 h2
      omega
  · intro h53'
    obtain ⟨hpar2, _⟩ := weekOfYear_parity (addDays 7 d) v7 h53'
    rw [addDays_seven_seven] at hpar2
    have hmod : weekOfYear (addDays 14 d) % 2 = weekOfYear d % 2 := by omega
    have hwd : weekday (addDays 14 d) = weekday d := by
      have h14 := (addDays_good 14 d hv).1
      unfold weekday weekdayZ
      omega
    unfold isRecyclingDay
    rw [hmod, hwd]

/-- **C5 witness**: Saturday 2024-01-06 is in week 1; the amended periodicity
holds there. -/
theorem claim5_witness :
    (¬(isRecyclingDay (parseData none none (some [some "Saturday-A"])) ⟨2024, 1, 6⟩ = true ∧
        isRecyclingDay (parseData none none (some [some "Saturday-A"]))
          (addDays 7 ⟨2024, 1, 6⟩) = true)) ∧
    (weekOfYear (addDays 7 ⟨2024, 1, 6⟩) ≠ 53 →
      isRecyclingDay (parseData none none (some [some "Saturday-A"])) (addDays 14 ⟨2024, 1, 6⟩) =
        isRecyclingDay (parseData none none (some [some "Saturday-A"])) ⟨2024, 1, 6⟩) :=
  claim5_amended (parseData none none (some [some "Saturday-A"])) ⟨2024, 1, 6⟩
    (by decide) (by decide)

lemma mapM_none_of_ne_nil {α β : Type} (f : α → Option β) (l : List α) (hne : l ≠ [])
    (hf : ∀ a ∈ l, f a = none) : l.mapM f = none := by
  cases l with
  | nil => exact absurd rfl hne
  | cons a t => exact mapM_none_of_head f a t (hf a (List.mem_cons_self a t))

/-- **C1**: the spec says every record shape it describes — including a heavy
record whose composite string has a valid leading ordinal digit but a
non-weekday name, such as `"3 Blursday"` — is parsed and the event window
generated without failure. In fact such a record parses to
`junkWeekOfMonth = 3` with `junkDay = NaN`, and then the `while` loop of
`isHeavyDay` never finds a day matching `NaN`, so window generation for any
window of at least one day does not terminate: the fueled embedding returns
`none` for every fuel bound. -/
theorem claim1_malformed_heavy_never_terminates :
    (parseData none (some [some "3 Blursday"]) none).junkWeekOfMonth = .num 3 ∧
    (parseData none (some [some "3 Blursday"]) none).junkDay = .nan ∧
    ∀ (holidays : List Date) (today : Date) (n : Int) (fuel : Nat), 1 ≤ n →
      getUpcomingEventsFuel (parseData none (some [some "3 Blursday"]) none) holidays today n
        fuel = none := by
  refine ⟨rfl, rfl, ?_⟩
  intro holidays today n fuel hn
  have hcat : ∀ (d : Date) (f : Nat),
      getCategoriesForDayFuel (parseData none (some [some "3 Blursday"]) none) d f = none := by
    intro d f
    have hnone : isHeavyDayFuel (parseData none (some [some "3 Blursday"]) none) d f = none :=
      isHeavyDayFuel_none (parseData none (some [some "3 Blursday"]) none)
        (never_match_nan (parseData none (some [some "3 Blursday"]) none) rfl) (by decide) d f
    unfold getCategoriesForDayFuel isJunkDayFuel isTreeDayFuel
    by_cases he : isEvenMonth d
    · rw [if_pos he, hnone]
      rfl
    · rw [if_neg he, if_pos (by simp [he]), hnone]
      rfl
  have hdays_ne : ((lodashRange 0 n).map
      (fun i => addDays i today)) ≠ [] := by
    intro hemp
    have hlen := congrArg List.length hemp
    rw [List.length_map, lodashRange_nonneg n (by omega)] at hlen
    simp at hlen
    omega
  have hmapm := mapM_none_of_ne_nil
    (fun day => do
      let categories ← getCategoriesForDayFuel (parseData none (some [some "3 Blursday"]) none)
        day fuel
      return EventInfo.mk day categories (isPossibleHoliday holidays day))
    ((lodashRange 0 n).map (fun i => addDays i today)) hdays_ne
    (fun day _ => by simp [hcat, bind])
  cases hgen : getUpcomingEventsFuel (parseData none (some [some "3 Blursday"]) none) holidays
      today n fuel with
  | none => rfl
  | some evs =>
    exfalso
    obtain ⟨evs0, hmap, _⟩ := generator_destruct _ holidays today n fuel evs hgen
    rw [hmapm] at hmap
    exact Option.noConfusion hmap

/-- **C1 witness**. -/
theorem claim1_witness :
    getUpcomingEventsFuel (parseData none (some [some "3 Blursday"]) none) [] ⟨2017, 1, 1⟩
      1 100 = none :=
  claim1_malformed_heavy_never_terminates.2.2 [] ⟨2017, 1, 1⟩ 1 100 (by norm_num)

/-- **C6**: for every rule set, window start and window length `n ≥ 0`, a
successfully generated event sequence has at most `n` events, its dates are
strictly increasing, every event's date is among the `n` consecutive dates
starting at the window start (inclusive), and every emitted event has a
non-empty category list. -/
theorem claim6_window_shape :
    ∀ (rules : PickupDay) (holidays : List Date) (today : Date) (n : Int) (fuel : Nat)
      (evs : List EventInfo), today.valid → 0 ≤ n →
      getUpcomingEventsFuel rules holidays today n fuel = some evs →
      ((evs.length : Int) ≤ n ∧
        evs.Pairwise (fun a b => dayNumber a.day < dayNumber b.day) ∧
        (∀ e ∈ evs, ∃ i : Int, 0 ≤ i ∧ i < n ∧ e.day = addDays i today) ∧
        (∀ e ∈ evs, e.categories ≠ [])) := by
  intro rules holidays today n fuel evs hv hn h
  obtain ⟨evs0, hmap, rfl⟩ := generator_destruct rules holidays today n fuel _ h
  have hfa := events_core rules holidays fuel _ _ hmap
  have hlen0 := List.Forall₂.length_eq hfa
  have hdays_len : ((lodashRange 0 n).map (fun i => addDays i today)).length = n.toNat := by
    rw [lodashRange_nonneg n hn]
    simp
  refine ⟨?_, ?_, ?_, ?_⟩
  · have hfil := List.length_filter_le (fun event => event.categories.length != 0) evs0
    omega
  · have hdaysp : ((lodashRange 0 n).map (fun i => addDays i today)).Pairwise
        (fun d1 d2 => dayNumber d1 < dayNumber d2) := by
      rw [lodashRange_nonneg n hn, List.map_map]
      refine List.Pairwise.map _ ?_ (List.pairwise_lt_range n.toNat)
      intro a b hab
      have ha := (addDays_good (a : Int) today hv).1
      have hb := (addDays_good (b : Int) today hv).1
      simp only [Function.comp_apply]
      omega
    have hevs0p : evs0.Pairwise (fun a b => dayNumber a.day < dayNumber b.day) := by
      refine forall₂_pairwise ?_ hfa hdaysp
      intro a b a' b' hP hQ hR
      rw [hP, hQ]
      exact hR
    exact hevs0p.sublist (List.filter_sublist evs0)
  · intro e he
    have he0 : e ∈ evs0 := List.mem_of_mem_filter he
    obtain ⟨dday, hd_mem, hP⟩ := forall₂_mem_right hfa e he0
    rw [lodashRange_nonneg n hn, List.map_map] at hd_mem
    simp only [List.mem_map, List.mem_range, Function.comp_apply] at hd_mem
    obtain ⟨k, hk, hdd⟩ := hd_mem
    refine ⟨(k : Int), by omega, by omega, ?_⟩
    rw [hP, ← hdd]
  · intro e he
    have hpred := (List.mem_filter.mp he).2
    simp only [bne_iff_ne, ne_eq] at hpred
    intro hnil
    rw [hnil] at hpred
    exact hpred rfl

/-- **C6 witness**. -/
theorem claim6_witness :
    (((([⟨⟨2017, 1, 2⟩, ["waste"], false⟩] : List EventInfo)).length : Int) ≤ 2 ∧
      ([⟨⟨2017, 1, 2⟩, ["waste"], false⟩] : List EventInfo).Pairwise
        (fun a b => dayNumber a.day < dayNumber b.day) ∧
      (∀ e ∈ ([⟨⟨2017, 1, 2⟩, ["waste"], false⟩] : List EventInfo),
        ∃ i : Int, 0 ≤ i ∧ i < 2 ∧ e.day = addDays i ⟨2017, 1, 2⟩) ∧
      (∀ e ∈ ([⟨⟨2017, 1, 2⟩, ["waste"], false⟩] : List EventInfo), e.categories ≠ [])) :=
  claim6_window_shape (parseData (some [some "Monday"]) none none) [] ⟨2017, 1, 2⟩ 2 2
    [⟨⟨2017, 1, 2⟩, ["waste"], false⟩] (by decide) (by norm_num) (by decide)

/-- **C2 counterexample**: with waste pickup on Mondays and the window
starting Monday 2017-01-02, `numberOfDays = -1` does not yield an empty
sequence: lodash `_.range(0, -1)` is `[0]`, so the generator classifies the
start day itself and emits one waste event. -/
theorem claim2_counterexample :
    getUpcomingEventsFuel (parseData (some [some "Monday"]) none none) [] ⟨2017, 1, 2⟩
        (-1) 2 =
      some [⟨⟨2017, 1, 2⟩, ["waste"], false⟩] ∧
    getUpcomingEventsFuel (parseData (some [some "Monday"]) none none) [] ⟨2017, 1, 2⟩
        (-1) 2 ≠ some [] := by
  refine ⟨by decide, by decide⟩

/-- **C2 amended**: `numberOfDays = 0` yields an empty sequence; a negative
`numberOfDays = n` enumerates the `|n|` days counting backwards from the
window start (start date first, dates strictly decreasing, all within the
`|n|` days ending at the start date) and emits whatever events match — not an
error, but not necessarily an empty sequence. -/
theorem claim2_zero_negative_window :
    ∀ (rules : PickupDay) (holidays : List Date) (today : Date) (n : Int) (fuel : Nat)
      (evs : List EventInfo), today.valid → n ≤ 0 →
      getUpcomingEventsFuel rules holidays today n fuel = some evs →
      ((n = 0 → evs = []) ∧
        evs.Pairwise (fun a b => dayNumber b.day < dayNumber a.day) ∧
        (∀ e ∈ evs, ∃ i : Int, n < i ∧ i ≤ 0 ∧ e.day = addDays i today) ∧
        (∀ e ∈ evs, dayNumber today + n < dayNumber e.day ∧
          dayNumber e.day ≤ dayNumber today)) := by
  intro rules holidays today n fuel evs hv hn h
  obtain ⟨evs0, hmap, rfl⟩ := generator_destruct rules holidays today n fuel _ h
  have hfa := events_core rules holidays fuel _ _ hmap
  by_cases hn0 : n = 0
  · subst hn0
    have hempty : lodashRange 0 0 = ([] : List Int) := rfl
    rw [hempty] at hfa
    simp only [List.map_nil] at hfa
    cases hfa
    simp
  · have hneg : n < 0 := by omega
    have hmem : ∀ e ∈ evs0, ∃ i : Int, n < i ∧ i ≤ 0 ∧ e.day = addDays i today := by
      intro e he0
      obtain ⟨dday, hd_mem, hP⟩ := forall₂_mem_right hfa e he0
      rw [lodashRange_neg n hneg, List.map_map] at hd_mem
      simp only [List.mem_map, List.mem_range, Function.comp_apply] at hd_mem
      obtain ⟨k, hk, hdd⟩ := hd_mem
      refine ⟨-(k : Int), by omega, by omega, ?_⟩
      rw [hP, ← hdd]
    refine ⟨fun h0 => absurd h0 hn0, ?_, ?_, ?_⟩
    · have hdaysp : ((lodashRange 0 n).map (fun i => addDays i today)).Pairwise
          (fun d1 d2 => dayNumber d2 < dayNumber d1) := by
        rw [lodashRange_neg n hneg, List.map_map]
        refine List.Pairwise.map _ ?_ (List.pairwise_lt_range (-n).toNat)
        intro a b hab
        have ha := (addDays_good (-(a : Int)) today hv).1
        have hb := (addDays_good (-(b : Int)) today hv).1
        simp only [Function.comp_apply]
        omega
      have hevs0p : evs0.Pairwise (fun a b => dayNumber b.day < dayNumber a.day) := by
        refine forall₂_pairwise ?_ hfa hdaysp
        intro a b a' b' hP hQ hR
        rw [hP, hQ]
        exact hR
      exact hevs0p.sublist (List.filter_sublist evs0)
    · intro e he
      exact hmem e (List.mem_of_mem_filter he)
    · intro e he
      obtain ⟨i, hi1, hi2, hie⟩ := hmem e (List.mem_of_mem_filter he)
      have ha := (addDays_good i today hv).1
      rw [hie]
      omega

/-- **C2 amended witness**. -/
theorem claim2_witness :
    (((-1 : Int)) = 0 → ([⟨⟨2017, 1, 2⟩, ["waste"], false⟩] : List EventInfo) = []) ∧
    ([⟨⟨2017, 1, 2⟩, ["waste"], false⟩] : List EventInfo).Pairwise
      (fun a b => dayNumber b.day < dayNumber a.day) ∧
    (∀ e ∈ ([⟨⟨2017, 1, 2⟩, ["waste"], false⟩] : List EventInfo),
      ∃ i : Int, (-1 : Int) < i ∧ i ≤ 0 ∧ e.day = addDays i ⟨2017, 1, 2⟩) ∧
    (∀ e ∈ ([⟨⟨2017, 1, 2⟩, ["waste"], false⟩] : List EventInfo),
      dayNumber ⟨2017, 1, 2⟩ + (-1) < dayNumber e.day ∧
        dayNumber e.day ≤ dayNumber ⟨2017, 1, 2⟩) :=
  claim2_zero_negative_window (parseData (some [some "Monday"]) none none) [] ⟨2017, 1, 2⟩
    (-1) 2 [⟨⟨2017, 1, 2⟩, ["waste"], false⟩] (by decide) (by norm_num) (by decide)
